import Mathlib

set_option maxRecDepth 20000

/-!
Verification of the retrieval core of an SMS technical-assistant backend:
document chunking, file validation, vector-index upsert/search, the four
retrieval tools, the LLM provider chain and the RAG agent orchestrator.
Python strings are modelled as `List Char` where index arithmetic matters
and as `String` elsewhere; machine floats never matter for the properties
below (all compared quantities are integers scaled to a common denominator).
-/

namespace Py

/-- The ASCII whitespace characters recognised by Python's `str.strip`. -/
def pyWs : List Char := [' ', '\t', '\n', '\r', '\x0b', '\x0c']

def isWs (c : Char) : Bool := pyWs.contains c

/-- Python `str.strip()`: drop leading and trailing whitespace. -/
def strip (s : List Char) : List Char :=
  ((s.dropWhile isWs).reverse.dropWhile isWs).reverse

/-- Python `text.split(sep)` for a one-character separator: split on every
occurrence, keeping empty pieces. -/
def splitOnC (sep : Char) : List Char → List (List Char)
  | [] => [[]]
  | c :: rest =>
    match splitOnC sep rest with
    | [] => [[c]]
    | l :: ls => if c = sep then [] :: l :: ls else (c :: l) :: ls

/-- Python `text.split("\n")`. -/
def splitNl : List Char → List (List Char) := splitOnC '\n'

/-- Python `str.lower()` restricted to ASCII. -/
def lower (s : List Char) : List Char := s.map Char.toLower

/-- Helper for `removeAll`: remove every non-overlapping occurrence of the
nonempty pattern `p :: ps`, scanning left to right (Python `str.replace(old, "")`).
Structural recursion on `fuel`; every step consumes at least one character, so
`fuel = s.length` always suffices. -/
def removeAllGo (p : Char) (ps : List Char) : Nat → List Char → List Char
  | _, [] => []
  | 0, s => s
  | fuel + 1, c :: rest =>
    if (p :: ps).isPrefixOf (c :: rest) then removeAllGo p ps fuel (rest.drop ps.length)
    else c :: removeAllGo p ps fuel rest

/-- Python `s.replace(pat, "")` for a nonempty pattern (all uses in the source
pass a nonempty literal). -/
def removeAll (pat : List Char) (s : List Char) : List Char :=
  match pat with
  | [] => s
  | p :: ps => removeAllGo p ps s.length s

/-- Digit run after the first digit in Python's `int(str)` grammar:
underscores may appear only singly and only between digits. -/
def digitsRest : List Char → Bool
  | [] => true
  | '_' :: rest =>
    match rest with
    | [] => false
    | c :: rs => c.isDigit && digitsRest rs
  | c :: rest => c.isDigit && digitsRest rest

/-- A nonempty digit run, with Python's underscore-separator rule. -/
def digitsOk : List Char → Bool
  | [] => false
  | c :: rest => c.isDigit && digitsRest rest

def digitsVal (s : List Char) : Nat :=
  (s.filter (· ≠ '_')).foldl (fun acc c => acc * 10 + (c.toNat - '0'.toNat)) 0

/-- Python `int(str)` restricted to ASCII: strip whitespace, optional sign,
then a nonempty underscore-separated digit run; anything else raises
`ValueError`, modelled as `none`. -/
def pyInt (s : List Char) : Option Int :=
  match strip s with
  | '+' :: ds => if digitsOk ds then some (digitsVal ds) else none
  | '-' :: ds => if digitsOk ds then some (-(digitsVal ds : Int)) else none
  | ds => if digitsOk ds then some (digitsVal ds) else none

/-- `pat.isPrefixOf (s.drop i)`: the pattern occurs in `s` at index `i`. -/
def matchesAt (s pat : List Char) (i : Nat) : Bool := pat.isPrefixOf (s.drop i)

/-- Python `s.rfind(pat, lo, hi)`: the largest index `i` with `lo ≤ i`,
`i + pat.length ≤ hi`, the occurrence inside the string, and `pat` matching
at `i`; `none` when there is no such index (Python returns `-1`). -/
def pyRfind (s pat : List Char) (lo hi : Nat) : Option Nat :=
  ((List.range hi).filter
    (fun i => lo ≤ i && i + pat.length ≤ hi && i + pat.length ≤ s.length
      && matchesAt s pat i)).getLast?

/-- Python `s[a:b]` for `0 ≤ a ≤ b` (clips at the string length). -/
def slice (s : List Char) (a b : Nat) : List Char := (s.take b).drop a

end Py



/-! ## `DocumentProcessor.chunk_text` (src/api/app/services/document_processor.py) -/

namespace DocProc

/-- `Chunk` dataclass from `document_processor.py`. -/
structure Chunk where
  content : List Char
  chunk_index : Nat
  page_number : Option Int
  section_title : Option (List Char)
deriving Repr, DecidableEq

/-- `int(line.replace("[Page ", "").replace("]", ""))` applied to a line that
starts with `"[Page "`; `none` when the line is not such a marker or the
stripped remainder fails Python's `int` parse (`ValueError`). -/
def pageMarkerValue (line : List Char) : Option Int :=
  if ("[Page ".data).isPrefixOf line then
    Py.pyInt (Py.removeAll "]".data (Py.removeAll "[Page ".data line))
  else none

/-- One iteration of the marker-processing loop of `chunk_text` (lines 298-312):
state is `(current_page, current_section, processed_text)`. A parsed page marker
updates the page and is dropped; a heading line updates the section and is kept;
every non-marker line is appended to the processed text followed by `"\n"`. -/
def processLine (st : Int × List Char × List Char) (line : List Char) :
    Int × List Char × List Char :=
  match pageMarkerValue line with
  | some n => (n, st.2.1, st.2.2)
  | none =>
    let sec :=
      if ("## ".data).isPrefixOf line then Py.strip (Py.removeAll "## ".data line)
      else if ("# ".data).isPrefixOf line then Py.strip (Py.removeAll "# ".data line)
      else st.2.1
    (st.1, sec, st.2.2 ++ line ++ ['\n'])

/-- The whole marker-processing pass: fold `processLine` over `text.split("\n")`
starting from page 1, empty section, empty processed text. -/
def processMarkers (text : List Char) : Int × List Char × List Char :=
  (Py.splitNl text).foldl processLine (1, [], [])

/-- The six sentence boundaries tried in order by `chunk_text`. -/
def boundaries : List (List Char) :=
  [". ".data, ".\n".data, "! ".data, "!\n".data, "? ".data, "?\n".data]

/-- The end offset of the window starting at `start`: `start + size`, shrunk to
just past the right-most sentence boundary in `[start + size/2, start + size)`
when one exists, else just past the right-most space there, else unchanged; no
shrinking happens for the final window (`start + size ≥ len`). -/
def computeEnd (text : List Char) (size start : Nat) : Nat :=
  let e0 := start + size
  if e0 < text.length then
    match boundaries.findSome?
        (fun b => (Py.pyRfind text b (start + size / 2) e0).map (· + b.length)) with
    | some e => e
    | none =>
      match Py.pyRfind text [' '] (start + size / 2) e0 with
      | some pos => pos + 1
      | none => e0
  else e0

/-- The `(start, end)` pairs produced by the `while start < len(text)` loop of
`chunk_text`. The source loop carries no other control state; it is bounded here
by `fuel`, which is faithful whenever every iteration advances `start` (in
particular for `overlap ≤ size / 2`, which covers the source defaults 1000/150;
for larger overlaps the source loop need not terminate at all). -/
def chunkWindows (text : List Char) (size overlap : Nat) : Nat → Nat → List (Nat × Nat)
  | 0, _ => []
  | fuel + 1, start =>
    if start < text.length then
      let e := computeEnd text size start
      (start, e) ::
        chunkWindows text size overlap fuel (if e < text.length then e - overlap else text.length)
    else []

/-- `DocumentProcessor.chunk_text`: marker processing, then overlapping windows,
each window's slice stripped, empty results dropped, and every surviving chunk
labelled with the page and section values left by the marker pass (the source
computes those in a separate first loop, so they are the final values) and a
running index. -/
def chunk_text (text : List Char) (size overlap : Nat) : List Chunk :=
  if text = [] then []
  else
    let st := processMarkers text
    let cleaned := Py.strip st.2.2
    let ws := chunkWindows cleaned size overlap (cleaned.length + 1) 0
    let contents := (ws.map (fun w => Py.strip (Py.slice cleaned w.1 w.2))).filter (· ≠ [])
    contents.enum.map
      (fun p => ⟨p.2, p.1, some st.1, if st.2.1 = [] then none else some st.2.1⟩)

/-- Source defaults `CHUNK_SIZE`, `CHUNK_OVERLAP`. -/
def CHUNK_SIZE : Nat := 1000

def CHUNK_OVERLAP : Nat := 150

end DocProc



/-! ## `DocumentProcessor.validate_file` (src/api/app/services/document_processor.py) -/

namespace DocProc

/-- `TierEnum` from `app/models/enums.py` (the three members used by
`TIER_LIMITS`). -/
inductive Tier where
  | basic
  | professional
  | enterprise
deriving Repr, DecidableEq

/-- One row of the `TIER_LIMITS` table. -/
structure TierLimits where
  storage_limit_mb : Option Nat
  max_file_size_mb : Option Nat
  max_pdf_pages : Nat
deriving Repr, DecidableEq

def TIER_LIMITS : Tier → TierLimits
  | .basic => ⟨some 50, some 50, 1000⟩
  | .professional => ⟨none, some 100, 2000⟩
  | .enterprise => ⟨none, some 100, 2000⟩

/-- `SUPPORTED_FILE_TYPES`: extension to allowed MIME types. -/
def SUPPORTED_FILE_TYPES : List (String × List String) :=
  [("pdf", ["application/pdf"]),
   ("docx", ["application/vnd.openxmlformats-officedocument.wordprocessingml.document"]),
   ("txt", ["text/plain"]),
   ("md", ["text/markdown", "text/x-markdown", "text/plain"]),
   ("html", ["text/html"]),
   ("htm", ["text/html"]),
   ("xlsx", ["application/vnd.openxmlformats-officedocument.spreadsheetml.sheet"]),
   ("csv", ["text/csv", "application/csv", "text/plain"])]

/-- `ValidationResult` dataclass. -/
structure ValidationResult where
  is_valid : Bool
  error_message : Option String
deriving Repr, DecidableEq

/-- `DocumentProcessor._get_extension`: the lowercased text after the last dot
(`filename.rsplit(".", 1)[-1].lower()`), or `""` when the filename has no dot. -/
def get_extension (filename : String) : String :=
  if filename.data.contains '.' then
    String.mk (Py.lower ((Py.splitOnC '.' filename.data).getLastD []))
  else ""

/-- Python `x or d` for an optional count: `None` and `0` both fall back to `d`. -/
def orDefault (o : Option Nat) (d : Nat) : Nat :=
  match o with
  | none => d
  | some v => if v = 0 then d else v

/-- `DocumentProcessor.validate_file`. The storage comparison
`current_storage_mb + file_size / (1024 * 1024) > storage_limit` is stated with
both sides multiplied by `1024 * 1024`, which is the same comparison in exact
arithmetic. -/
def validate_file (filename : String) (file_size : Nat) (content_type : String)
    (tier : Tier) (current_storage_mb : Nat) : ValidationResult :=
  let extension := get_extension filename
  if extension = "" then
    ⟨false, some "File must have an extension"⟩
  else
    match SUPPORTED_FILE_TYPES.lookup extension with
    | none =>
      ⟨false, some ("Unsupported file type. Supported: "
        ++ String.intercalate ", " (SUPPORTED_FILE_TYPES.map (·.1)))⟩
    | some valid_mimes =>
      if ¬ valid_mimes.contains content_type ∧ content_type ≠ "application/octet-stream" then
        ⟨false, some ("Invalid content type for " ++ extension ++ " file")⟩
      else
        let limits := TIER_LIMITS tier
        let max_file_size_bytes := orDefault limits.max_file_size_mb 100 * 1024 * 1024
        if file_size > max_file_size_bytes then
          ⟨false, some ("File too large. Maximum: "
            ++ toString (orDefault limits.max_file_size_mb 100) ++ "MB")⟩
        else
          match limits.storage_limit_mb with
          | some storage_limit =>
            if current_storage_mb * (1024 * 1024) + file_size > storage_limit * (1024 * 1024) then
              ⟨false, some ("Storage limit exceeded. Maximum: " ++ toString storage_limit ++ "MB")⟩
            else if filename.length > 255 then
              ⟨false, some "Filename too long. Maximum: 255 characters"⟩
            else
              ⟨true, none⟩
          | none =>
            if filename.length > 255 then
              ⟨false, some "Filename too long. Maximum: 255 characters"⟩
            else
              ⟨true, none⟩

end DocProc



/-!
## Model of the Qdrant collection

The vector index is an external service; it is modelled by its documented
contract. A collection is a list of points (vectors are irrelevant to every
claim below and omitted). `MatchValue` on a string field is exact equality.
`MatchText` is full-text matching: the condition holds when every token of the
query occurs among the tokens of the stored field, tokens being maximal
alphanumeric runs, lowercased (Qdrant's default `word` tokenizer with its
default `lowercase: true`). `scroll` pages through the points satisfying the
filter; `search` returns the points satisfying the filter ranked by a
similarity score (abstract here) and cut to `limit`. `upsert` overwrites the
stored point with the same id, or appends a point with a fresh id.
-/

namespace Qdrant

structure Payload where
  org_id : String
  document_id : String
  chunk_index : Nat
  page_number : Option Int
  section_title : Option String
  content_raw : String
deriving Repr, DecidableEq

structure QPoint where
  id : String
  payload : Payload
deriving Repr, DecidableEq

/-- Tokenizer helper: accumulate the current alphanumeric run (reversed). -/
def tokenizeGo : List Char → List Char → List (List Char)
  | acc, [] => if acc = [] then [] else [acc.reverse]
  | acc, c :: rest =>
    if c.isAlphanum then tokenizeGo (c :: acc) rest
    else if acc = [] then tokenizeGo [] rest
    else acc.reverse :: tokenizeGo [] rest

/-- Qdrant `word` tokenizer: maximal alphanumeric runs, lowercased. -/
def tokenize (s : String) : List (List Char) :=
  (tokenizeGo [] s.data).map Py.lower

/-- `MatchText`: every token of the query occurs in the stored text. -/
def textMatch (query stored : String) : Bool :=
  (tokenize query).all (fun tok => (tokenize stored).contains tok)

inductive FieldMatch where
  | value (v : String)
  | text (t : String)
deriving Repr, DecidableEq

/-- `FieldCondition(key=..., match=...)`; all keys used by this repository hold
string payload values. -/
structure FieldCondition where
  key : String
  matcher : FieldMatch
deriving Repr, DecidableEq

/-- Payload field lookup for the keys this repository filters on.
`section_title` can be stored as null, in which case no condition on it holds. -/
def Payload.getStr (p : Payload) (key : String) : Option String :=
  if key = "org_id" then some p.org_id
  else if key = "document_id" then some p.document_id
  else if key = "section_title" then p.section_title
  else if key = "content_raw" then some p.content_raw
  else none

def evalCond (p : Payload) (c : FieldCondition) : Bool :=
  match Payload.getStr p c.key with
  | none => false
  | some stored =>
    match c.matcher with
    | .value v => stored = v
    | .text t => textMatch t stored

/-- `Filter(must=[...])`: every condition holds. -/
def evalFilter (conds : List FieldCondition) (p : Payload) : Bool :=
  conds.all (evalCond p)

/-- `client.scroll`: the next `limit` points satisfying the filter, starting at
`offset` (`none` means the beginning), plus the next offset (`none` once the
filtered sequence is exhausted). -/
def scroll (coll : List QPoint) (conds : List FieldCondition) (limit : Nat)
    (offset : Option Nat) : List QPoint × Option Nat :=
  let matched := coll.filter (fun q => evalFilter conds q.payload)
  let off := offset.getD 0
  ((matched.drop off).take limit,
    if off + limit < matched.length then some (off + limit) else none)

/-- `client.search`: the points satisfying the filter, ranked by descending
score (an abstract similarity, a parameter of the model) and cut to `limit`. -/
def searchPoints (coll : List QPoint) (score : QPoint → Int) (conds : List FieldCondition)
    (limit : Nat) : List QPoint :=
  ((coll.filter (fun q => evalFilter conds q.payload)).mergeSort
    (fun a b => score b ≤ score a)).take limit

/-- `client.upsert` for one point: overwrite the stored point carrying the same
id, else append. -/
def upsertOne (coll : List QPoint) (p : QPoint) : List QPoint :=
  if coll.any (fun q => q.id = p.id) then coll.map (fun q => if q.id = p.id then p else q)
  else coll ++ [p]

/-- `client.upsert` for a batch of points, first to last. -/
def upsertPoints (coll : List QPoint) (ps : List QPoint) : List QPoint :=
  ps.foldl upsertOne coll

end Qdrant

/-! ## `VectorStoreService` (src/api/app/services/vector_store.py) -/

namespace VectorStore

open Qdrant

/-- One element of the `chunks` list accepted by `upsert_chunks`: a dict with
keys `content`, `chunk_index`, `page_number`, `section_title` (the shape built
by `DocumentProcessor.process_document`); `chunk_index` is read with
`chunk.get("chunk_index", i)`, so it may be absent. -/
structure ChunkData where
  content : String
  chunk_index : Option Nat
  page_number : Option Int
  section_title : Option String
deriving Repr, DecidableEq

/-- The deterministic point id `f"{document_id}_{chunk_index}"`. -/
def point_id (document_id : String) (chunk_index : Nat) : String :=
  document_id ++ "_" ++ toString chunk_index

/-- The `PointStruct` list built by `upsert_chunks` (vectors omitted; no claim
inspects them). -/
def buildPoints (org_id document_id : String) (chunks : List ChunkData) : List QPoint :=
  chunks.enum.map (fun p =>
    let idx := p.2.chunk_index.getD p.1
    { id := point_id document_id idx,
      payload :=
        { org_id := org_id, document_id := document_id, chunk_index := idx,
          page_number := p.2.page_number, section_title := p.2.section_title,
          content_raw := p.2.content } })

/-- `VectorStoreService.upsert_chunks`: returns the count reported to the
caller together with the collection after the upsert. -/
def upsert_chunks (coll : List QPoint) (org_id document_id : String)
    (chunks : List ChunkData) : Nat × List QPoint :=
  if chunks = [] then (0, coll)
  else
    let ps := buildPoints org_id document_id chunks
    (ps.length, upsertPoints coll ps)

/-- The tenant filter used by `VectorStoreService.search`:
`FieldCondition(key="org_id", match=MatchValue(value=str(org_id)))`. -/
def searchFilter (org_id : String) : List FieldCondition :=
  [⟨"org_id", .value org_id⟩]

/-- `VectorStoreService.search`: embed the query (the abstract `score` models
similarity of each point to the query) and run the filtered similarity search. -/
def search (coll : List QPoint) (score : String → QPoint → Int) (org_id : String)
    (query : String) (limit : Nat) : List QPoint :=
  searchPoints coll (score query) (searchFilter org_id) limit

end VectorStore

/-! ## `KeywordSearchTool` (src/api/app/services/tools/keyword_search.py) -/

namespace Tools

open Qdrant

/-- The `scroll_filter` built by `KeywordSearchTool._arun` (lines 98-109). Note
that the `org_id` condition uses `MatchText`, unlike every other retrieval path
in the repository, which uses `MatchValue`. -/
def keywordFilter (org_id keyword : String) : List FieldCondition :=
  [⟨"org_id", .text org_id⟩, ⟨"content_raw", .text keyword⟩]

/-- The primary (exact-match) retrieval of `KeywordSearchTool._arun`: a single
scroll call bounded by `limit` (lines 112-118). -/
def keyword_search_points (coll : List QPoint) (org_id keyword : String)
    (limit : Nat) : List QPoint :=
  (scroll coll (keywordFilter org_id keyword) limit none).1

end Tools

/-! ## `GrepDocumentsTool` (src/api/app/services/tools/grep_documents.py) -/

namespace Tools

open Qdrant

/-- The regular-expression engine (Python `re`), abstracted by its interface:
`compile` either yields a compiled pattern or the message of the `re.error`;
`findIter` yields the `(start, end)` spans of the non-overlapping matches
found left to right, as `finditer` does. `re.sub` with replacement
`f"**{m.group()}**"` is span replacement over the same spans (`highlightGo`). -/
structure ReEngine where
  Pat : Type
  compile : String → Bool → Except String Pat
  findIter : Pat → String → List (Nat × Nat)

/-- Replace each span `(s, e)` of `content` (taken in order, `pos` being the
scan position) by `"**" ++ content[s:e] ++ "**"`. -/
def highlightGo (content : List Char) : Nat → List (Nat × Nat) → List Char
  | pos, [] => content.drop pos
  | pos, (s, e) :: rest =>
    Py.slice content pos s ++ "**".data ++ Py.slice content s e ++ "**".data
      ++ highlightGo content e rest

/-- One entry of `all_matches` (grep_documents.py lines 139-163). -/
structure GrepMatch where
  content : String
  section_title : Option String
  page_number : Option Int
  match_count : Nat
deriving Repr, DecidableEq

/-- Build the `all_matches` entry for a chunk whose content matched: context is
the window from 100 characters before the first match's start to 100 after its
end, and every match found inside that context window is `**`-highlighted. -/
def mkEntry (E : ReEngine) (pat : E.Pat) (q : QPoint) : GrepMatch :=
  let content := q.payload.content_raw
  let spans := E.findIter pat content
  match spans with
  | [] => ⟨"", q.payload.section_title, q.payload.page_number, 0⟩
  | (s, e) :: _ =>
    let a := s - 100
    let b := min content.data.length (e + 100)
    let context := Py.slice content.data a b
    ⟨String.mk (highlightGo context 0 (E.findIter pat (String.mk context))),
      q.payload.section_title, q.payload.page_number, spans.length⟩

/-- The inner `for point in points` loop: append an entry per matching chunk,
stopping as soon as `limit` entries have been collected (the source extends
`all_matches` and breaks once `len(all_matches) >= limit`). -/
def procBatch (E : ReEngine) (pat : E.Pat) (limit : Nat) :
    List QPoint → List GrepMatch → List GrepMatch
  | [], acc => acc
  | q :: rest, acc =>
    if E.findIter pat q.payload.content_raw = [] then procBatch E pat limit rest acc
    else
      if limit ≤ (acc ++ [mkEntry E pat q]).length then acc ++ [mkEntry E pat q]
      else procBatch E pat limit rest (acc ++ [mkEntry E pat q])

/-- The `while len(all_matches) < limit` scroll loop (lines 126-169), with
batch size 100. `fuel` bounds the iterations; the loop advances the scroll
offset by 100 every round, so `coll.length + 1` rounds always suffice. -/
def grepLoop (E : ReEngine) (pat : E.Pat) (coll : List QPoint)
    (conds : List FieldCondition) (limit : Nat) :
    Nat → Option Nat → List GrepMatch → List GrepMatch
  | 0, _, acc => acc
  | fuel + 1, offset, acc =>
    if acc.length < limit then
      let r := scroll coll conds 100 offset
      if r.1 = [] then acc
      else
        let acc2 := procBatch E pat limit r.1 acc
        if r.2 = none then acc2
        else grepLoop E pat coll conds limit fuel r.2 acc2
    else acc

/-- Python truthiness of the optional section string (`if section:`). -/
def truthyStr : Option String → Bool
  | none => false
  | some s => s ≠ ""

/-- Python truthiness of the optional page number (`if page:`). -/
def truthyInt : Option Int → Bool
  | none => false
  | some n => n ≠ 0

/-- Format one `all_matches` entry (lines 176-191), `i` counting from 1. -/
def fmtGrepEntry (i : Nat) (m : GrepMatch) : String :=
  let source_info :=
    (if truthyStr m.section_title then ["Section: " ++ m.section_title.getD ""] else [])
      ++ (if truthyInt m.page_number then ["Page: " ++ toString (m.page_number.getD 0)] else [])
      ++ [toString m.match_count ++ " match(es)"]
  "[Result " ++ toString i ++ "] (" ++ String.intercalate ", " source_info ++ ")\n..."
    ++ m.content ++ "..."

/-- `GrepDocumentsTool._arun`. -/
def grep_arun (E : ReEngine) (coll : List QPoint) (org_id pattern : String)
    (case_insensitive : Bool) (limit : Nat) : String :=
  match E.compile pattern case_insensitive with
  | .error msg => "Invalid regex pattern: " ++ msg
  | .ok pat =>
    let conds : List FieldCondition := [⟨"org_id", .value org_id⟩]
    let allMatches := grepLoop E pat coll conds limit (coll.length + 1) none []
    if allMatches = [] then
      "No documents matched the pattern \x27" ++ pattern ++ "\x27."
    else
      String.intercalate "\n\n"
        ((allMatches.enum).map (fun p => fmtGrepEntry (p.1 + 1) p.2))

end Tools

/-! ## `LLMService` (src/api/app/services/llm.py) -/

namespace LLM

inductive LLMProvider where
  | anthropic
  | openai
  | google
deriving Repr, DecidableEq

/-- `LLMModel` dataclass. Costs are USD per million tokens; the source stores
them as floats, modelled exactly as rationals (every literal in the catalog is
exactly representable both ways). -/
structure LLMModel where
  provider : LLMProvider
  model_id : String
  display_name : String
  cost_per_million_input : ℚ
  cost_per_million_output : ℚ
deriving Repr, DecidableEq

def CLAUDE_HAIKU : LLMModel :=
  ⟨.anthropic, "claude-3-5-haiku-latest", "haiku", 0.25, 1.25⟩

def GPT_4O_MINI : LLMModel :=
  ⟨.openai, "gpt-4o-mini", "gpt4o-mini", 0.15, 0.60⟩

def GEMINI_FLASH : LLMModel :=
  ⟨.google, "gemini-2.0-flash-exp", "gemini-flash", 0.075, 0.30⟩

def FALLBACK_ORDER : List LLMModel := [CLAUDE_HAIKU, GPT_4O_MINI, GEMINI_FLASH]

/-- The provider credentials from settings; `""` models an unset key (Python
checks `bool(key)`, and both `None` and `""` are falsy). -/
structure Settings where
  anthropic_api_key : String
  openai_api_key : String
  google_api_key : String
deriving Repr, DecidableEq

def apiKey (st : Settings) : LLMProvider → String
  | .anthropic => st.anthropic_api_key
  | .openai => st.openai_api_key
  | .google => st.google_api_key

/-- `LLMService._is_provider_configured`. -/
def is_provider_configured (st : Settings) (p : LLMProvider) : Bool :=
  apiKey st p ≠ ""

def keyName : LLMProvider → String
  | .anthropic => "ANTHROPIC_API_KEY"
  | .openai => "OPENAI_API_KEY"
  | .google => "GOOGLE_API_KEY"

/-- The environment `get_llm` runs in: the settings plus an abstraction of
whether each provider's LangChain constructor succeeds (it may raise for
reasons outside this repository) and, when it fails, with what message. -/
structure LLMEnv where
  settings : Settings
  constructOk : LLMProvider → Bool
  constructErr : LLMProvider → String

/-- An LLM handle: the constructor that produced it and the model id (the
claims never look inside the handle). -/
def Handle := LLMProvider × String
deriving instance Repr, DecidableEq for Handle

/-- `LLMService._create_llm`: re-checks the credential, then the constructor
either succeeds or raises (abstracted by `constructOk`/`constructErr`). -/
def create_llm (env : LLMEnv) (m : LLMModel) : Except String Handle :=
  if apiKey env.settings m.provider = "" then
    .error (keyName m.provider ++ " is not configured")
  else if env.constructOk m.provider then .ok (m.provider, m.model_id)
  else .error (env.constructErr m.provider)

/-- `LLMResult` dataclass. -/
structure LLMResult where
  llm : Handle
  model : LLMModel
  fallback_used : Bool
  fallback_reason : Option String
deriving Repr, DecidableEq

def NO_PROVIDER_MSG : String :=
  "No LLM provider available. Configure at least one of: ANTHROPIC_API_KEY, OPENAI_API_KEY, or GOOGLE_API_KEY"

/-- The `for i, model in enumerate(FALLBACK_ORDER)` loop of `get_llm`: `i` is
the index of the head of `rest`, `reason` the running `fallback_reason`. -/
def get_llm_go (env : LLMEnv) : List LLMModel → Nat → Option String → Except String LLMResult
  | [], _, _ => .error NO_PROVIDER_MSG
  | m :: rest, i, reason =>
    if ¬ is_provider_configured env.settings m.provider then
      get_llm_go env rest (i + 1)
        (if i = 0 then some (m.display_name ++ " not configured") else reason)
    else
      match create_llm env m with
      | .ok h =>
        .ok ⟨h, m, decide (0 < i), if 0 < i then reason else none⟩
      | .error e =>
        get_llm_go env rest (i + 1) (some (m.display_name ++ " error: " ++ e))

/-- `LLMService.get_llm`: first configured, constructible candidate in
`FALLBACK_ORDER`, else the `LLMServiceError` (modelled as `.error`). -/
def get_llm (env : LLMEnv) : Except String LLMResult :=
  get_llm_go env FALLBACK_ORDER 0 none

/-- `calculate_cost_euro`, in exact arithmetic. -/
def calculate_cost_euro (tokens_input tokens_output : Nat) (m : LLMModel) : ℚ :=
  ((tokens_input : ℚ) / 1000000 * m.cost_per_million_input
    + (tokens_output : ℚ) / 1000000 * m.cost_per_million_output) * 0.92

end LLM

/-! ## `RAGAgent` (src/api/app/services/agent.py) -/

namespace Agent

open LLM

def FALLBACK_MESSAGE : String :=
  "Info not found. Try rephrasing or contact technical support."

/-- `AgentResponse` dataclass. -/
structure AgentResponse where
  answer : String
  model_used : String
  tokens_input : Nat
  tokens_output : Nat
  cost_euro : ℚ
  tools_used : List String
  success : Bool
  fallback_used : Bool
  error : Option String
deriving Repr, DecidableEq

/-- `RAGAgent._estimate_tokens`: `len(text) // 4`. -/
def estimate_tokens (text : String) : Nat := text.length / 4

def lowerS (s : String) : String := String.mk (Py.lower s.data)

/-- Python `needle in hay`: `needle` occurs contiguously in `hay`. -/
def containsSub (hay needle : String) : Bool :=
  (List.range (hay.data.length + 1)).any (fun i => needle.data.isPrefixOf (hay.data.drop i))

/-- The fallback classification of a completed run (agent.py lines 256-260). -/
def isFallbackAnswer (answer : String) : Bool :=
  answer = FALLBACK_MESSAGE || containsSub (lowerS answer) "not found"
    || containsSub (lowerS answer) "no information"

/-- Outcome of `await asyncio.wait_for(self._executor.ainvoke(...))`, the only
effectful step inside the `try` of `invoke`: the executor finished (with an
optional `"output"` value and the tool names extracted from the intermediate
steps), the six-minute deadline elapsed (`TimeoutError`), or some other
exception with text `msg` was raised. -/
inductive ExecOutcome where
  | completed (output : Option String) (toolsUsed : List String)
  | timedOut
  | failed (msg : String)
deriving Repr, DecidableEq

/-- The conversation history: `(role, content)` pairs. -/
abbrev History := List (String × String)

/-- The body of `RAGAgent.invoke` from the `try` onward (lines 226-307), given
the model the agent was created with. -/
def invokeCore (model : LLMModel) (query : String) (history : History)
    (oc : ExecOutcome) : AgentResponse :=
  match oc with
  | .completed output toolsUsed =>
    let answer := output.getD FALLBACK_MESSAGE
    let tokens_input := estimate_tokens query + (history.map (fun h => estimate_tokens h.2)).sum
    let tokens_output := estimate_tokens answer
    let is_fallback := isFallbackAnswer answer
    ⟨answer, model.display_name, tokens_input, tokens_output,
      calculate_cost_euro tokens_input tokens_output model, toolsUsed,
      !is_fallback, is_fallback, none⟩
  | .timedOut =>
    ⟨"Timeout. Try again in a few minutes.", model.display_name,
      estimate_tokens query, 0, 0, [], false, true, some "Timeout"⟩
  | .failed msg =>
    ⟨FALLBACK_MESSAGE, model.display_name, estimate_tokens query, 0, 0, [],
      false, true, some msg⟩

/-- `RAGAgent.invoke` end to end. The first statement of `invoke` calls
`create_agent`, and hence `LLMService.get_llm`, OUTSIDE the `try`: an
`LLMServiceError` raised there propagates to the caller, modelled as `.error`.
(The `"Agent not initialized"` guard of lines 208-219 is unreachable:
`create_agent` either raises or assigns both `_executor` and
`_current_model`.) -/
def invoke (env : LLMEnv) (query : String) (history : History)
    (oc : ExecOutcome) : Except String AgentResponse :=
  match get_llm env with
  | .error e => .error e
  | .ok r => .ok (invokeCore r.model query history oc)

end Agent

/-! ## Auxiliary definitions used by the specification theorems -/

namespace DocProc

/-- The cleaned (marker-processed, stripped) text that `chunk_text` windows. -/
def cleanedText (text : List Char) : List Char := Py.strip (processMarkers text).2.2

/-- The window list `chunk_text` cuts for a given input. -/
def windowsOf (text : List Char) (size overlap : Nat) : List (Nat × Nat) :=
  chunkWindows (cleanedText text) size overlap ((cleanedText text).length + 1) 0

/-- Concatenation of the window slices with the `overlap`-long duplicated
prefix of every window after the first removed. -/
def windowsJoin (t : List Char) (overlap : Nat) : List (Nat × Nat) → List Char
  | [] => []
  | w :: rest =>
    Py.slice t w.1 w.2 ++ (rest.map (fun v => Py.slice t (v.1 + overlap) v.2)).flatten

end DocProc

namespace Qdrant

/-- The point ids stored in a collection, in order. -/
def idsOf (coll : List QPoint) : List String := coll.map (·.id)

end Qdrant

namespace Tools

/-- Modelled from the spec: the tenant-scoped chunks whose content the pattern
matches, in index order. -/
def grepHits (E : ReEngine) (pat : E.Pat) (coll : List Qdrant.QPoint)
    (conds : List Qdrant.FieldCondition) : List Qdrant.QPoint :=
  (coll.filter (fun q => Qdrant.evalFilter conds q.payload)).filter
    (fun q => E.findIter pat q.payload.content_raw ≠ [])

/-- Modelled from the spec: the first `limit` matching chunks, each rendered as
its `all_matches` entry. -/
def grepDirect (E : ReEngine) (pat : E.Pat) (coll : List Qdrant.QPoint)
    (conds : List Qdrant.FieldCondition) (limit : Nat) : List GrepMatch :=
  ((grepHits E pat coll conds).take limit).map (mkEntry E pat)

end Tools

namespace LLM

/-- Modelled from the spec: a candidate is usable when its provider is both
configured and constructible. -/
def selectable (env : LLMEnv) (m : LLMModel) : Bool :=
  is_provider_configured env.settings m.provider && env.constructOk m.provider

/-- Modelled from the spec: the first usable candidate of the ordered chain,
with its index. -/
def firstUsable (env : LLMEnv) : List LLMModel → Nat → Option (Nat × LLMModel)
  | [], _ => none
  | m :: rest, i => if selectable env m then some (i, m) else firstUsable env rest (i + 1)

end LLM

/-! ## Lemmas about the marker-processing pass -/

namespace DocProc

/-- Folding `processLine` from any state appends exactly the retained lines
(each with a trailing newline) to the accumulated text, and the final page is
the value of the last parsed page marker, defaulting to the incoming page. -/
theorem foldl_processLine_spec (lines : List (List Char)) :
    ∀ st : Int × List Char × List Char,
      (lines.foldl processLine st).2.2
          = st.2.2 ++ (((lines.filter (fun l => pageMarkerValue l = none)).map
              (fun l => l ++ ['\n'])).flatten)
        ∧ (lines.foldl processLine st).1
          = ((lines.filterMap pageMarkerValue).getLastD st.1) := by
  induction lines with
  | nil => intro st; simp
  | cons l rest ih =>
    intro st
    cases h : pageMarkerValue l with
    | some n =>
      have := ih (n, st.2.1, st.2.2)
      simp only [List.foldl_cons, processLine, h]
      simp only [List.filter_cons, List.filterMap_cons, h]
      simp only [this.1, this.2]
      refine ⟨by simp, ?_⟩
      rw [List.getLastD_cons]
    | none =>
      have := ih (st.1, if ("## ".data).isPrefixOf l then Py.strip (Py.removeAll "## ".data l)
        else if ("# ".data).isPrefixOf l then Py.strip (Py.removeAll "# ".data l)
        else st.2.1, st.2.2 ++ l ++ ['\n'])
      simp only [List.foldl_cons, processLine, h]
      simp only [List.filter_cons, List.filterMap_cons, h]
      simp only [this.1, this.2]
      simp [List.append_assoc]

end DocProc

/-- C10: In `chunk_text`'s marker pass, a line starting with `"[Page "` whose
stripped remainder does not parse as a Python integer (e.g. `"[Page two]"`) is
not treated as a page marker: the processed text is exactly the concatenation
of the lines whose marker parse fails (each retained verbatim with its
newline), the page counter is the value of the last parsing marker (1 when
there is none), and only parsing marker lines are dropped. -/
theorem chunk_text_marker_processing (text : List Char) :
    (DocProc.processMarkers text).2.2
        = (((Py.splitNl text).filter (fun l => DocProc.pageMarkerValue l = none)).map
            (fun l => l ++ ['\n'])).flatten
      ∧ (DocProc.processMarkers text).1
        = (((Py.splitNl text).filterMap DocProc.pageMarkerValue).getLastD 1)
      ∧ DocProc.pageMarkerValue "[Page two]".data = none := by
  refine ⟨?_, ?_, by decide⟩
  · simpa using (DocProc.foldl_processLine_spec (Py.splitNl text) (1, [], [])).1
  · simpa using (DocProc.foldl_processLine_spec (Py.splitNl text) (1, [], [])).2

/-- C2 (failing input): the text places `"AAA"` on page 1 and `"BBB"` on
page 2; the single chunk starts at offset 0, where page 1 is in effect, yet
`chunk_text` labels it with page 2 — the marker pass runs to completion before
any chunk is cut, so every chunk receives the final page/section values. -/
theorem chunk_text_records_final_page :
    DocProc.chunk_text "[Page 1]\nAAA\n[Page 2]\nBBB".data 1000 150
        = [⟨"AAA\nBBB".data, 0, some 2, none⟩]
      ∧ (2 : Int) ≠ 1 := by
  exact ⟨by decide, by decide⟩

/-- C9 (counterexample to the claim as stated): a 256-character filename with
the supported extension `pdf`, declared type `application/octet-stream`, zero
size and zero storage use is rejected — `validate_file` also enforces a
255-character filename bound, which the claim omits. -/
theorem validate_file_octet_counterexample :
    (DocProc.validate_file (String.mk (List.replicate 252 'a') ++ ".pdf") 0
        "application/octet-stream" .basic 0).is_valid = false
      ∧ DocProc.get_extension (String.mk (List.replicate 252 'a') ++ ".pdf") = "pdf"
      ∧ (String.mk (List.replicate 252 'a') ++ ".pdf").length = 256 := by
  refine ⟨by decide, by decide, by decide⟩

/-- C9 (amended): whenever the filename carries a supported extension, its
length is at most 255, and the size/storage tier limits are met, a declared
content type of exactly `application/octet-stream` validates successfully —
even though that MIME type appears in no extension's allowed list, the
MIME-type-matches-extension check is bypassed for this one value. -/
theorem validate_file_octet_stream_bypass (filename : String) (file_size : Nat)
    (tier : DocProc.Tier) (current_storage_mb : Nat)
    (hext : (DocProc.SUPPORTED_FILE_TYPES.lookup (DocProc.get_extension filename)).isSome)
    (hsize : file_size
      ≤ DocProc.orDefault (DocProc.TIER_LIMITS tier).max_file_size_mb 100 * 1024 * 1024)
    (hstore : ∀ L, (DocProc.TIER_LIMITS tier).storage_limit_mb = some L
      → current_storage_mb * (1024 * 1024) + file_size ≤ L * (1024 * 1024))
    (hlen : filename.length ≤ 255) :
    DocProc.validate_file filename file_size "application/octet-stream" tier
        current_storage_mb = ⟨true, none⟩
      ∧ ∀ p ∈ DocProc.SUPPORTED_FILE_TYPES, ¬ p.2.contains "application/octet-stream" := by
  obtain ⟨mimes, hm⟩ := Option.isSome_iff_exists.mp hext
  have hne : ¬ DocProc.get_extension filename = "" := by
    intro h
    rw [h] at hm
    simp [DocProc.SUPPORTED_FILE_TYPES, List.lookup] at hm
  refine ⟨?_, by decide⟩
  cases tier <;>
    simp only [DocProc.validate_file, DocProc.TIER_LIMITS, DocProc.orDefault, hm, hne,
      if_false, ite_false] <;>
    simp_all [DocProc.TIER_LIMITS, DocProc.orDefault] <;>
    (repeat rw [if_neg (by omega)])

/-- C9 witness: `a.pdf` with declared type `application/octet-stream` (absent
from every MIME list) validates on the basic tier. -/
theorem validate_file_octet_stream_bypass_witness :
    (DocProc.SUPPORTED_FILE_TYPES.lookup (DocProc.get_extension "a.pdf")).isSome
      ∧ DocProc.validate_file "a.pdf" 0 "application/octet-stream" .basic 0 = ⟨true, none⟩ :=
  ⟨by decide,
    (validate_file_octet_stream_bypass "a.pdf" 0 .basic 0 (by decide) (by decide)
      (by intro L hL; simp only [DocProc.TIER_LIMITS] at hL; omega) (by decide)).1⟩

namespace Agent

/-- `containsSub hay needle` is exactly Python's `needle in hay`: some split of
`hay` has `needle` as a contiguous segment. -/
theorem containsSub_iff (hay needle : String) :
    containsSub hay needle = true ↔ ∃ a b : List Char, hay.data = a ++ needle.data ++ b := by
  unfold containsSub
  rw [List.any_eq_true]
  constructor
  · rintro ⟨i, _, hp⟩
    obtain ⟨t, ht⟩ := List.isPrefixOf_iff_prefix.mp hp
    exact ⟨hay.data.take i, t, by rw [List.append_assoc, ht, List.take_append_drop]⟩
  · rintro ⟨a, b, h⟩
    refine ⟨a.length, ?_, ?_⟩
    · rw [List.mem_range]
      have : hay.data.length = a.length + (needle.data.length + b.length) := by
        rw [h]; simp
      omega
    · rw [List.isPrefixOf_iff_prefix, h, List.append_assoc, List.drop_left]
      exact ⟨b, rfl⟩

end Agent

/-- C7: for every run of `invoke` that completes without an exception, the
response is classified from the raw answer alone — `fallback_used` is true iff
the answer equals the fixed fallback phrase or contains `"not found"` or
`"no information"` as a case-insensitive substring — and `success` is always
the negation of `fallback_used`; the answer returned is the executor output
(the fallback phrase when the output key is absent). -/
theorem invoke_completed_classification (model : LLM.LLMModel) (query : String)
    (history : Agent.History) (output : Option String) (toolsUsed : List String) :
    ((Agent.invokeCore model query history (.completed output toolsUsed)).fallback_used = true
      ↔ (output.getD Agent.FALLBACK_MESSAGE = Agent.FALLBACK_MESSAGE
          ∨ (∃ a b, (Agent.lowerS (output.getD Agent.FALLBACK_MESSAGE)).data
              = a ++ "not found".data ++ b)
          ∨ (∃ a b, (Agent.lowerS (output.getD Agent.FALLBACK_MESSAGE)).data
              = a ++ "no information".data ++ b)))
      ∧ (Agent.invokeCore model query history (.completed output toolsUsed)).success
          = !(Agent.invokeCore model query history (.completed output toolsUsed)).fallback_used
      ∧ (Agent.invokeCore model query history (.completed output toolsUsed)).answer
          = output.getD Agent.FALLBACK_MESSAGE := by
  refine ⟨?_, rfl, rfl⟩
  simp only [Agent.invokeCore, Agent.isFallbackAnswer, Bool.or_eq_true,
    decide_eq_true_eq, Agent.containsSub_iff]
  exact or_assoc

/-- C3 (counterexample to the claim as stated): with no provider configured,
`invoke` reaches `create_agent` → `get_llm` outside its `try`, and the
`LLMServiceError` escapes to the caller instead of becoming an
`AgentResponse`. -/
theorem invoke_exception_escapes :
    Agent.invoke ⟨⟨"", "", ""⟩, fun _ => true, fun _ => ""⟩ "q" [] .timedOut
      = .error LLM.NO_PROVIDER_MSG := by rfl

/-- C3 (amended): once agent creation has resolved an LLM (`get_llm`
succeeded), no exception escapes `invoke`: every executor outcome yields a
well-formed `AgentResponse`; a timeout yields the distinct try-again answer
with zero output tokens, `success = false`, `fallback_used = true`,
`error = "Timeout"`; any other exception in the loop yields the canned
fallback answer with `success = false`, `fallback_used = true` and the
exception text as `error`. Exceptions raised while resolving the provider
chain itself (`ProviderChainExhausted`) do escape, as the counterexample
shows. -/
theorem invoke_no_escape_after_bind (env : LLM.LLMEnv) (query : String)
    (history : Agent.History) (oc : Agent.ExecOutcome) (r : LLM.LLMResult)
    (h : LLM.get_llm env = .ok r) :
    Agent.invoke env query history oc = .ok (Agent.invokeCore r.model query history oc)
      ∧ Agent.invokeCore r.model query history .timedOut
          = ⟨"Timeout. Try again in a few minutes.", r.model.display_name,
              Agent.estimate_tokens query, 0, 0, [], false, true, some "Timeout"⟩
      ∧ (∀ msg, Agent.invokeCore r.model query history (.failed msg)
          = ⟨Agent.FALLBACK_MESSAGE, r.model.display_name,
              Agent.estimate_tokens query, 0, 0, [], false, true, some msg⟩) := by
  refine ⟨?_, rfl, fun msg => rfl⟩
  simp only [Agent.invoke, h]

/-- C3 witness: with the primary provider configured, a timed-out run returns
the well-formed timeout response through `invoke`. -/
theorem invoke_no_escape_witness :
    Agent.invoke ⟨⟨"k", "", ""⟩, fun _ => true, fun _ => ""⟩ "q" [] .timedOut
        = .ok (Agent.invokeCore LLM.CLAUDE_HAIKU "q" [] .timedOut)
      ∧ Agent.invokeCore LLM.CLAUDE_HAIKU "q" [] .timedOut
          = ⟨"Timeout. Try again in a few minutes.", LLM.CLAUDE_HAIKU.display_name,
              Agent.estimate_tokens "q", 0, 0, [], false, true, some "Timeout"⟩
      ∧ (∀ msg, Agent.invokeCore LLM.CLAUDE_HAIKU "q" [] (.failed msg)
          = ⟨Agent.FALLBACK_MESSAGE, LLM.CLAUDE_HAIKU.display_name,
              Agent.estimate_tokens "q", 0, 0, [], false, true, some msg⟩) :=
  invoke_no_escape_after_bind ⟨⟨"k", "", ""⟩, fun _ => true, fun _ => ""⟩ "q" [] .timedOut
    ⟨(.anthropic, "claude-3-5-haiku-latest"), LLM.CLAUDE_HAIKU, false, none⟩ rfl



set_option maxHeartbeats 1600000 in
/-- C6: `get_llm` returns the first candidate of the chain that is both
configured and constructible, `fallback_used` is true exactly when that
candidate is not the chain head, a skip reason accompanies exactly the
fallback case, and when no candidate is usable the distinct
no-provider-available error is raised. -/
theorem get_llm_chain (env : LLM.LLMEnv) :
    (∀ i m, LLM.firstUsable env LLM.FALLBACK_ORDER 0 = some (i, m) →
      ∃ r, LLM.get_llm env = .ok r ∧ r.model = m
        ∧ r.fallback_used = decide (0 < i) ∧ r.fallback_reason.isSome = decide (0 < i))
      ∧ (LLM.firstUsable env LLM.FALLBACK_ORDER 0 = none →
          LLM.get_llm env = .error LLM.NO_PROVIDER_MSG) := by
  by_cases h1 : env.settings.anthropic_api_key = "" <;>
  cases h2 : env.constructOk .anthropic <;>
  by_cases h3 : env.settings.openai_api_key = "" <;>
  cases h4 : env.constructOk .openai <;>
  by_cases h5 : env.settings.google_api_key = "" <;>
  cases h6 : env.constructOk .google <;>
    simp only [LLM.get_llm, LLM.get_llm_go, LLM.FALLBACK_ORDER, LLM.create_llm,
      LLM.is_provider_configured, LLM.apiKey, LLM.firstUsable, LLM.selectable,
      LLM.CLAUDE_HAIKU, LLM.GPT_4O_MINI, LLM.GEMINI_FLASH, h1, h2, h3, h4, h5, h6] <;>
    simp_all

/-- C6 witness: primary unconfigured, second provider configured and
constructible — `get_llm` picks it with `fallback_used = true` and a recorded
reason. -/
theorem get_llm_chain_witness :
    ∃ r, LLM.get_llm ⟨⟨"", "k", ""⟩, fun _ => true, fun _ => ""⟩ = .ok r
      ∧ r.model = LLM.GPT_4O_MINI ∧ r.fallback_used = true
      ∧ r.fallback_reason.isSome = true :=
  (get_llm_chain ⟨⟨"", "k", ""⟩, fun _ => true, fun _ => ""⟩).1 1 LLM.GPT_4O_MINI rfl

/-! ## Upsert idempotence lemmas -/

namespace Qdrant



theorem ids_upsertOne (coll : List QPoint) (p : QPoint) :
    idsOf (upsertOne coll p) = if p.id ∈ idsOf coll then idsOf coll else idsOf coll ++ [p.id] := by
  have hmem : (coll.any (fun q => q.id = p.id)) = true ↔ p.id ∈ idsOf coll := by
    simp only [idsOf, List.any_eq_true, List.mem_map, decide_eq_true_eq]
  unfold upsertOne
  by_cases h : p.id ∈ idsOf coll
  · rw [if_pos (hmem.mpr h), if_pos h]
    unfold idsOf
    rw [List.map_map]
    apply List.map_congr_left
    intro q _
    by_cases hq : q.id = p.id <;> simp [hq]
  · rw [if_neg (fun hc => h (hmem.mp hc)), if_neg h]
    simp [idsOf]

theorem mem_ids_upsertOne (coll : List QPoint) (p : QPoint) (x : String)
    (hx : x ∈ idsOf coll) : x ∈ idsOf (upsertOne coll p) := by
  rw [ids_upsertOne]
  split
  · exact hx
  · exact List.mem_append_left _ hx

theorem self_mem_ids_upsertOne (coll : List QPoint) (p : QPoint) :
    p.id ∈ idsOf (upsertOne coll p) := by
  rw [ids_upsertOne]
  split
  · assumption
  · simp

theorem mem_ids_upsertPoints (ps : List QPoint) :
    ∀ (coll : List QPoint) (x : String), x ∈ idsOf coll → x ∈ idsOf (upsertPoints coll ps) := by
  induction ps with
  | nil => intro coll x hx; exact hx
  | cons q rest ih =>
    intro coll x hx
    exact ih (upsertOne coll q) x (mem_ids_upsertOne coll q x hx)

theorem self_mem_ids_upsertPoints (ps : List QPoint) :
    ∀ (coll : List QPoint) (p : QPoint), p ∈ ps → p.id ∈ idsOf (upsertPoints coll ps) := by
  induction ps with
  | nil => intro _ _ h; cases h
  | cons q rest ih =>
    intro coll p hp
    rcases List.mem_cons.mp hp with h | h
    · subst h
      exact mem_ids_upsertPoints rest (upsertOne coll p) p.id (self_mem_ids_upsertOne coll p)
    · exact ih (upsertOne coll q) p h

theorem ids_upsertPoints_of_all_mem (ps : List QPoint) :
    ∀ coll : List QPoint, (∀ p ∈ ps, p.id ∈ idsOf coll) →
      idsOf (upsertPoints coll ps) = idsOf coll := by
  induction ps with
  | nil => intro coll _; rfl
  | cons q rest ih =>
    intro coll hall
    have hq : idsOf (upsertOne coll q) = idsOf coll := by
      rw [ids_upsertOne, if_pos (hall q (List.mem_cons_self q rest))]
    calc idsOf (upsertPoints (upsertOne coll q) rest)
        = idsOf (upsertOne coll q) := by
          refine ih (upsertOne coll q) ?_
          intro p hp
          rw [hq]
          exact hall p (List.mem_cons_of_mem q hp)
      _ = idsOf coll := hq

theorem nodup_ids_upsertOne (coll : List QPoint) (p : QPoint)
    (h : (idsOf coll).Nodup) : (idsOf (upsertOne coll p)).Nodup := by
  rw [ids_upsertOne]
  split
  · exact h
  · rename_i hnm
    refine h.append (List.nodup_singleton _) ?_
    intro a ha hb
    rw [List.mem_singleton] at hb
    subst hb
    exact hnm ha

theorem nodup_ids_upsertPoints (ps : List QPoint) :
    ∀ coll : List QPoint, (idsOf coll).Nodup → (idsOf (upsertPoints coll ps)).Nodup := by
  induction ps with
  | nil => intro _ h; exact h
  | cons q rest ih => intro coll h; exact ih (upsertOne coll q) (nodup_ids_upsertOne coll q h)

end Qdrant

/-- C5: `upsert_chunks` reports exactly one point per chunk, the point ids are
the deterministic strings `document_id ++ "_" ++ chunk_index`, upserting the
same chunk list for the same document twice leaves exactly the point ids of a
single upsert (Qdrant overwrites on equal id), and no duplicate ids are
created when the collection had none. -/
theorem upsert_chunks_idempotent (coll : List Qdrant.QPoint) (org doc : String)
    (chunks : List VectorStore.ChunkData) :
    (VectorStore.upsert_chunks coll org doc chunks).1 = chunks.length
      ∧ (VectorStore.buildPoints org doc chunks).map (·.id)
          = chunks.enum.map (fun p => doc ++ "_" ++ toString (p.2.chunk_index.getD p.1))
      ∧ Qdrant.idsOf
            (VectorStore.upsert_chunks
              (VectorStore.upsert_chunks coll org doc chunks).2 org doc chunks).2
          = Qdrant.idsOf (VectorStore.upsert_chunks coll org doc chunks).2
      ∧ ((Qdrant.idsOf coll).Nodup →
          (Qdrant.idsOf (VectorStore.upsert_chunks coll org doc chunks).2).Nodup) := by
  refine ⟨?_, ?_, ?_, ?_⟩
  · by_cases h : chunks = []
    · simp [VectorStore.upsert_chunks, h]
    · simp [VectorStore.upsert_chunks, h, VectorStore.buildPoints]
  · simp [VectorStore.buildPoints, VectorStore.point_id]
  · by_cases h : chunks = []
    · simp [VectorStore.upsert_chunks, h]
    · simp only [VectorStore.upsert_chunks, h, if_false, ite_false]
      exact Qdrant.ids_upsertPoints_of_all_mem _ _
        (fun p hp => Qdrant.self_mem_ids_upsertPoints _ _ p hp)
  · intro hnd
    by_cases h : chunks = []
    · simpa [VectorStore.upsert_chunks, h] using hnd
    · simp only [VectorStore.upsert_chunks, h, if_false, ite_false]
      exact Qdrant.nodup_ids_upsertPoints _ _ hnd

/-- C5 witness: upserting two chunks of a document twice into an empty
collection leaves two points with distinct ids. -/
theorem upsert_chunks_idempotent_witness :
    (Qdrant.idsOf ([] : List Qdrant.QPoint)).Nodup
      ∧ (Qdrant.idsOf (VectorStore.upsert_chunks [] "org" "doc"
          [⟨"c0", some 0, none, none⟩, ⟨"c1", some 1, none, none⟩]).2).Nodup :=
  ⟨by decide,
    (upsert_chunks_idempotent [] "org" "doc"
      [⟨"c0", some 0, none, none⟩, ⟨"c1", some 1, none, none⟩]).2.2.2 (by decide)⟩

/-- C1 (failing input): tenant A's id and tenant B's id are distinct UUIDs made
of the same hyphen-separated groups in a different order, so under Qdrant
full-text matching they tokenize to the same token set. The keyword tool's
primary path filters `org_id` with `MatchText` (unlike the `MatchValue`
equality used by the semantic, grep and section paths), so a keyword query
scoped to tenant A returns tenant B's chunk. -/
theorem keyword_search_cross_tenant :
    Tools.keyword_search_points
        [⟨"docB_0", ⟨"aaaaaaaa-cccc-dddd-bbbb-eeeeeeeeeeee", "docB", 0, some 1,
          some "Specs", "torque settings"⟩⟩]
        "aaaaaaaa-bbbb-cccc-dddd-eeeeeeeeeeee" "torque" 5
      = [⟨"docB_0", ⟨"aaaaaaaa-cccc-dddd-bbbb-eeeeeeeeeeee", "docB", 0, some 1,
          some "Specs", "torque settings"⟩⟩]
      ∧ ("aaaaaaaa-cccc-dddd-bbbb-eeeeeeeeeeee" : String)
          ≠ "aaaaaaaa-bbbb-cccc-dddd-eeeeeeeeeeee" := by
  exact ⟨by decide, by decide⟩

/-- C4 (counterexample): with `size = 2`, `overlap = 0`, cleaned text `"a b"`
chunks to `["a", "b"]` — each chunk is `.strip()`ped, so the concatenation
(plain concatenation, as the overlap is 0) does not rebuild the cleaned text. -/
theorem chunk_text_reconstruction_counterexample :
    (DocProc.chunk_text "a b".data 2 0).map (·.content) = ["a".data, "b".data]
      ∧ Py.strip (DocProc.processMarkers "a b".data).2.2 = "a b".data
      ∧ ("a".data ++ "b".data) ≠ "a b".data := by
  exact ⟨by decide, by decide, by decide⟩

/-! ## Window-level reconstruction lemmas for `chunk_text` -/

namespace Py

theorem pyRfind_bounds {s pat : List Char} {lo hi i : Nat}
    (h : pyRfind s pat lo hi = some i) : lo ≤ i ∧ i + pat.length ≤ hi := by
  have hm := List.mem_of_getLast?_eq_some h
  have := List.mem_filter.mp hm
  have hp := this.2
  simp only [Bool.and_eq_true, decide_eq_true_eq] at hp
  exact ⟨hp.1.1.1, hp.1.1.2⟩

theorem strip_length_le (s : List Char) : (strip s).length ≤ s.length := by
  unfold strip
  calc ((s.dropWhile isWs).reverse.dropWhile isWs).reverse.length
      = ((s.dropWhile isWs).reverse.dropWhile isWs).length := List.length_reverse _
    _ ≤ (s.dropWhile isWs).reverse.length := (List.dropWhile_sublist _).length_le
    _ = (s.dropWhile isWs).length := List.length_reverse _
    _ ≤ s.length := (List.dropWhile_sublist _).length_le

theorem slice_length_le (s : List Char) (a b : Nat) : (slice s a b).length ≤ b - a := by
  unfold slice
  have h1 : (s.take b).length ≤ b := by
    rw [List.length_take]; omega
  rw [List.length_drop]
  omega

theorem slice_append_drop (t : List Char) (a b : Nat) (hab : a ≤ b) :
    slice t a b ++ t.drop b = t.drop a := by
  unfold slice
  by_cases hl : a ≤ t.length
  · conv_rhs => rw [← List.take_append_drop b t]
    rw [List.drop_append_eq_append_drop]
    have : a - (t.take b).length = 0 := by
      rw [List.length_take]; omega
    rw [this, List.drop_zero]
  · have h1 : (t.take b).drop a = [] := by
      apply List.drop_eq_nil_of_le
      rw [List.length_take]; omega
    have h2 : t.drop b = [] := by
      apply List.drop_eq_nil_of_le; omega
    have h3 : t.drop a = [] := by
      apply List.drop_eq_nil_of_le; omega
    rw [h1, h2, h3]; rfl

theorem slice_to_end (t : List Char) (a b : Nat) (hb : t.length ≤ b) :
    slice t a b = t.drop a := by
  unfold slice
  rw [List.take_of_length_le hb]

end Py

namespace DocProc

theorem boundaries_length : ∀ b ∈ boundaries, b.length = 2 := by decide

theorem computeEnd_bounds (text : List Char) (size start : Nat) (hs : 0 < size) :
    start + size / 2 < computeEnd text size start
      ∧ computeEnd text size start ≤ start + size := by
  have hhalf : size / 2 < size := Nat.div_lt_self hs (by norm_num)
  unfold computeEnd
  by_cases h0 : start + size < text.length
  · simp only [h0, if_true, ite_true]
    cases hf : boundaries.findSome?
        (fun b => (Py.pyRfind text b (start + size / 2) (start + size)).map (· + b.length)) with
    | some e =>
      simp only [hf]
      obtain ⟨b, hb, hbe⟩ := List.exists_of_findSome?_eq_some hf
      cases hr : Py.pyRfind text b (start + size / 2) (start + size) with
      | none => rw [hr] at hbe; cases hbe
      | some pos =>
        rw [hr] at hbe
        simp only [Option.map_some'] at hbe
        obtain ⟨h1, h2⟩ := Py.pyRfind_bounds hr
        have hlen := boundaries_length b hb
        cases hbe
        omega
    | none =>
      simp only [hf]
      cases hr : Py.pyRfind text [' '] (start + size / 2) (start + size) with
      | some pos =>
        simp only [hr]
        obtain ⟨h1, h2⟩ := Py.pyRfind_bounds hr
        simp only [List.length_cons, List.length_nil] at h2
        omega
      | none =>
        simp only [hr]
        omega
  · simp only [h0, if_false, ite_false]
    omega



theorem chunkWindows_nil (text : List Char) (size overlap : Nat) :
    ∀ fuel start, ¬ start < text.length → chunkWindows text size overlap fuel start = [] := by
  intro fuel start h
  cases fuel <;> simp [chunkWindows, h]

theorem chunkWindows_tailJoin (text : List Char) (size overlap : Nat) (hs : 0 < size)
    (ho : overlap ≤ size / 2) :
    ∀ fuel start, text.length - start < fuel →
      ((chunkWindows text size overlap fuel start).map
        (fun v => Py.slice text (v.1 + overlap) v.2)).flatten = text.drop (start + overlap) := by
  intro fuel
  induction fuel with
  | zero => intro start h; omega
  | succ n ih =>
    intro start h
    by_cases hlt : start < text.length
    · simp only [chunkWindows, hlt, if_true, ite_true]
      obtain ⟨hlo, hhi⟩ := computeEnd_bounds text size start hs
      by_cases helt : computeEnd text size start < text.length
      · simp only [helt, if_true, ite_true, List.map_cons, List.flatten_cons]
        rw [ih (computeEnd text size start - overlap) (by omega)]
        have hov : computeEnd text size start - overlap + overlap = computeEnd text size start := by
          omega
        rw [hov]
        exact Py.slice_append_drop text (start + overlap) (computeEnd text size start) (by omega)
      · simp only [helt, if_false, ite_false, List.map_cons, List.flatten_cons]
        rw [chunkWindows_nil text size overlap n text.length (by omega), List.map_nil,
          List.flatten_nil, List.append_nil]
        exact Py.slice_to_end text (start + overlap) (computeEnd text size start) (by omega)
    · rw [chunkWindows_nil text size overlap (n + 1) start hlt, List.map_nil, List.flatten_nil]
      rw [List.drop_eq_nil_of_le (by omega)]

theorem chunkWindows_reconstruct (text : List Char) (size overlap : Nat) (hs : 0 < size)
    (ho : overlap ≤ size / 2) :
    ∀ fuel start, text.length - start < fuel →
      windowsJoin text overlap (chunkWindows text size overlap fuel start)
        = text.drop start := by
  intro fuel start h
  by_cases hlt : start < text.length
  · cases fuel with
    | zero => omega
    | succ n =>
      simp only [chunkWindows, hlt, if_true, ite_true]
      obtain ⟨hlo, hhi⟩ := computeEnd_bounds text size start hs
      by_cases helt : computeEnd text size start < text.length
      · simp only [helt, if_true, ite_true, windowsJoin]
        rw [chunkWindows_tailJoin text size overlap hs ho n
          (computeEnd text size start - overlap) (by omega)]
        have hov : computeEnd text size start - overlap + overlap = computeEnd text size start := by
          omega
        rw [hov]
        exact Py.slice_append_drop text start (computeEnd text size start) (by omega)
      · simp only [helt, if_false, ite_false, windowsJoin]
        rw [chunkWindows_nil text size overlap n text.length (by omega), List.map_nil,
          List.flatten_nil, List.append_nil]
        exact Py.slice_to_end text start (computeEnd text size start) (by omega)
  · rw [chunkWindows_nil text size overlap fuel start hlt]
    rw [List.drop_eq_nil_of_le (by omega)]
    rfl

theorem chunkWindows_mem_bounds (text : List Char) (size overlap : Nat) (hs : 0 < size) :
    ∀ fuel start w, w ∈ chunkWindows text size overlap fuel start →
      w.2 ≤ w.1 + size := by
  intro fuel
  induction fuel with
  | zero => intro start w hw; simp [chunkWindows] at hw
  | succ n ih =>
    intro start w hw
    by_cases hlt : start < text.length
    · simp only [chunkWindows, hlt, if_true, ite_true, List.mem_cons] at hw
      rcases hw with rfl | hw
      · exact (computeEnd_bounds text size start hs).2
      · exact ih _ w hw
    · rw [chunkWindows_nil text size overlap _ _ hlt] at hw
      cases hw

theorem chunkWindows_head (text : List Char) (size overlap : Nat) :
    ∀ fuel start w, (chunkWindows text size overlap fuel start).head? = some w →
      w.1 = start := by
  intro fuel start w h
  cases fuel with
  | zero => simp [chunkWindows] at h
  | succ n =>
    by_cases hlt : start < text.length
    · simp only [chunkWindows, hlt, if_true, ite_true, List.head?_cons] at h
      cases h
      rfl
    · rw [chunkWindows_nil text size overlap _ _ hlt] at h
      cases h

theorem chunkWindows_chain (text : List Char) (size overlap : Nat) (hs : 0 < size)
    (ho : overlap ≤ size / 2) :
    ∀ fuel start, (chunkWindows text size overlap fuel start).Chain'
      (fun w v => v.1 + overlap = w.2) := by
  intro fuel
  induction fuel with
  | zero => intro start; simp [chunkWindows]
  | succ n ih =>
    intro start
    by_cases hlt : start < text.length
    · simp only [chunkWindows, hlt, if_true, ite_true]
      rw [List.chain'_cons']
      refine ⟨?_, ih _⟩
      intro v hv
      obtain ⟨hlo, hhi⟩ := computeEnd_bounds text size start hs
      by_cases helt : computeEnd text size start < text.length
      · simp only [helt, if_true, ite_true] at hv
        have h1 := chunkWindows_head text size overlap n
          (computeEnd text size start - overlap) v hv
        simp only []
        omega
      · simp only [helt, if_false, ite_false] at hv
        rw [chunkWindows_nil text size overlap n text.length (by omega)] at hv
        cases hv
    · rw [chunkWindows_nil text size overlap _ _ hlt]
      exact List.chain'_nil

end DocProc

/-- C4 (amended): for `0 < size` and `overlap ≤ size / 2` (which covers the
source defaults 1000/150 and is what makes the source's `while` loop advance),
every chunk's length is at most `size`; the window starting points follow
`next = end - overlap`, so consecutive windows share exactly `overlap`
characters (and the chunks cut from them at most `overlap`); and concatenating
the window slices, with the `overlap`-long duplicated prefix of every window
after the first removed, rebuilds the cleaned (marker-processed) text exactly.
The chunks themselves are these window slices with surrounding whitespace
stripped and empty results dropped, which is why the chunk concatenation alone
does not rebuild the cleaned text (see the counterexample). -/
theorem chunk_text_window_spec (text : List Char) (size overlap : Nat)
    (hs : 0 < size) (ho : overlap ≤ size / 2) :
    (∀ c ∈ DocProc.chunk_text text size overlap, c.content.length ≤ size)
      ∧ DocProc.windowsJoin (DocProc.cleanedText text) overlap
          (DocProc.windowsOf text size overlap) = DocProc.cleanedText text
      ∧ (DocProc.windowsOf text size overlap).Chain' (fun w v => v.1 + overlap = w.2)
      ∧ (DocProc.chunk_text text size overlap).map (·.content)
          = ((DocProc.windowsOf text size overlap).map
              (fun w => Py.strip (Py.slice (DocProc.cleanedText text) w.1 w.2))).filter
              (· ≠ []) := by
  have hmap : (DocProc.chunk_text text size overlap).map (·.content)
      = ((DocProc.windowsOf text size overlap).map
          (fun w => Py.strip (Py.slice (DocProc.cleanedText text) w.1 w.2))).filter
          (· ≠ []) := by
    by_cases htext : text = []
    · subst htext
      have hce : DocProc.cleanedText [] = [] := by decide
      simp [DocProc.chunk_text, DocProc.windowsOf, hce, DocProc.chunkWindows]
    · simp only [DocProc.chunk_text, htext, if_false, ite_false, DocProc.windowsOf,
        DocProc.cleanedText, List.map_map]
      have : ((·.content) ∘ fun p : Nat × List Char =>
          (⟨p.2, p.1, some (DocProc.processMarkers text).1,
            if (DocProc.processMarkers text).2.1 = [] then none
            else some (DocProc.processMarkers text).2.1⟩ : DocProc.Chunk)) = Prod.snd := by
        funext p
        rfl
      rw [this]
      rw [show (List.enum = List.enumFrom 0 (α := List Char)) from rfl]
      rw [List.enumFrom_map_snd]
  refine ⟨?_, ?_, ?_, hmap⟩
  · intro c hc
    have hcmem : c.content ∈ (DocProc.chunk_text text size overlap).map (·.content) :=
      List.mem_map_of_mem _ hc
    rw [hmap] at hcmem
    have hmem2 := List.mem_of_mem_filter hcmem
    obtain ⟨w, hw, hweq⟩ := List.mem_map.mp hmem2
    have hb := DocProc.chunkWindows_mem_bounds (DocProc.cleanedText text) size overlap hs
      ((DocProc.cleanedText text).length + 1) 0 w hw
    have h1 := Py.strip_length_le (Py.slice (DocProc.cleanedText text) w.1 w.2)
    have h2 := Py.slice_length_le (DocProc.cleanedText text) w.1 w.2
    rw [← hweq]
    omega
  · exact DocProc.chunkWindows_reconstruct (DocProc.cleanedText text) size overlap hs ho
      ((DocProc.cleanedText text).length + 1) 0 (by omega)
  · exact DocProc.chunkWindows_chain (DocProc.cleanedText text) size overlap hs ho
      ((DocProc.cleanedText text).length + 1) 0

/-- C4 witness: `size = 4`, `overlap = 2` on `"hello world"`. -/
theorem chunk_text_window_spec_witness :
    (0 < 4 ∧ 2 ≤ 4 / 2)
      ∧ ((∀ c ∈ DocProc.chunk_text "hello world".data 4 2, c.content.length ≤ 4)
        ∧ DocProc.windowsJoin (DocProc.cleanedText "hello world".data) 2
            (DocProc.windowsOf "hello world".data 4 2)
            = DocProc.cleanedText "hello world".data
        ∧ (DocProc.windowsOf "hello world".data 4 2).Chain' (fun w v => v.1 + 2 = w.2)
        ∧ (DocProc.chunk_text "hello world".data 4 2).map (·.content)
            = ((DocProc.windowsOf "hello world".data 4 2).map
                (fun w => Py.strip
                  (Py.slice (DocProc.cleanedText "hello world".data) w.1 w.2))).filter
                (· ≠ [])) :=
  ⟨⟨by decide, by decide⟩, chunk_text_window_spec "hello world".data 4 2 (by decide) (by decide)⟩

/-! ## Grep loop equivalence -/

namespace Qdrant

theorem scroll_fst (coll : List QPoint) (conds : List FieldCondition) (limit : Nat)
    (offset : Option Nat) :
    (scroll coll conds limit offset).1
      = ((coll.filter (fun q => evalFilter conds q.payload)).drop (offset.getD 0)).take limit :=
  rfl

theorem scroll_snd (coll : List QPoint) (conds : List FieldCondition) (limit : Nat)
    (offset : Option Nat) :
    (scroll coll conds limit offset).2
      = (if offset.getD 0 + limit < (coll.filter (fun q => evalFilter conds q.payload)).length
          then some (offset.getD 0 + limit) else none) :=
  rfl

end Qdrant

namespace Tools



theorem procBatch_spec (E : ReEngine) (pat : E.Pat) (limit : Nat) :
    ∀ (points : List Qdrant.QPoint) (acc : List GrepMatch), acc.length < limit →
      procBatch E pat limit points acc
        = acc ++ ((points.filter
            (fun q => E.findIter pat q.payload.content_raw ≠ [])).map
            (mkEntry E pat)).take (limit - acc.length) := by
  intro points
  induction points with
  | nil => intro acc h; simp [procBatch]
  | cons q rest ih =>
    intro acc h
    by_cases hq : E.findIter pat q.payload.content_raw = []
    · rw [procBatch, if_pos hq, ih acc h, List.filter_cons_of_neg (by simpa using hq)]
    · rw [procBatch, if_neg hq, List.filter_cons_of_pos (by simpa using hq)]
      by_cases hl : limit ≤ (acc ++ [mkEntry E pat q]).length
      · rw [if_pos hl]
        simp only [List.length_append, List.length_cons, List.length_nil] at hl
        have hlim : limit - acc.length = 1 := by omega
        rw [hlim, List.map_cons, List.take_succ_cons, List.take_zero]
      · rw [if_neg hl]
        simp only [List.length_append, List.length_cons, List.length_nil] at hl
        rw [ih (acc ++ [mkEntry E pat q]) (by simp only [List.length_append,
          List.length_cons, List.length_nil]; omega)]
        have hlim : limit - acc.length = (limit - (acc.length + 1)) + 1 := by omega
        rw [List.map_cons, hlim, List.take_succ_cons]
        simp [List.append_assoc]

theorem grepLoop_spec (E : ReEngine) (pat : E.Pat) (coll : List Qdrant.QPoint)
    (conds : List Qdrant.FieldCondition) (limit : Nat) :
    ∀ (fuel : Nat) (offset : Option Nat) (acc : List GrepMatch),
      (coll.filter (fun q => Qdrant.evalFilter conds q.payload)).length - offset.getD 0
          < 100 * fuel →
      grepLoop E pat coll conds limit fuel offset acc
        = acc ++ ((((coll.filter (fun q => Qdrant.evalFilter conds q.payload)).drop
            (offset.getD 0)).filter
            (fun q => E.findIter pat q.payload.content_raw ≠ [])).map
            (mkEntry E pat)).take (limit - acc.length) := by
  intro fuel
  induction fuel with
  | zero => intro off acc h; omega
  | succ n ih =>
    intro off acc h
    rw [grepLoop]
    by_cases hacc : acc.length < limit
    · rw [if_pos hacc]
      simp only [Qdrant.scroll_fst, Qdrant.scroll_snd]
      set matched := coll.filter (fun q => Qdrant.evalFilter conds q.payload) with hmatched
      set off0 := off.getD 0 with hoff0
      set batch := (matched.drop off0).take 100 with hbatch
      by_cases hempty : batch = []
      · rw [if_pos hempty]
        have hd : matched.drop off0 = [] := by
          rcases List.take_eq_nil_iff.mp (hbatch ▸ hempty) with h100 | hnil
          · cases h100
          · exact hnil
        rw [hd]
        simp
      · rw [if_neg hempty]
        rw [procBatch_spec E pat limit _ acc hacc]
        have hsplit : matched.drop off0 = batch ++ matched.drop (off0 + 100) := by
          rw [hbatch, ← List.drop_drop]
          exact (List.take_append_drop 100 (matched.drop off0)).symm
        by_cases hnext : off0 + 100 < matched.length
        · rw [if_neg (by rw [if_pos hnext]; simp)]
          rw [if_pos hnext]
          rw [ih (some (off0 + 100)) _ (by simp only [Option.getD_some]; omega)]
          simp only [Option.getD_some]
          rw [hsplit, List.filter_append, List.map_append, List.take_append_eq_append_take,
            List.append_assoc]
          congr 3
          simp only [List.length_append, List.length_take, List.length_map]
          omega
        · rw [if_pos (by rw [if_neg hnext])]
          have hd2 : matched.drop (off0 + 100) = [] :=
            List.drop_eq_nil_of_le (by omega)
          rw [hsplit, hd2, List.append_nil]
    · rw [if_neg hacc]
      have hz : limit - acc.length = 0 := by omega
      rw [hz]
      simp

end Tools

/-- C8: `GrepDocumentsTool._arun`, for any regex engine, collection, tenant,
pattern and limit: an uncompilable pattern yields the tool-level error string
(the function is total — nothing propagates to the agent); otherwise the
batched scroll loop returns exactly the first `limit` tenant-scoped chunks the
pattern matches (or all of them if fewer), each rendered as a context window
running from 100 characters before the first match's start to 100 after its
end with every match inside that window highlighted, plus the chunk's match
count; no hits yields the explanatory no-match string. -/
theorem grep_arun_spec (E : Tools.ReEngine) (coll : List Qdrant.QPoint)
    (org_id pattern : String) (case_insensitive : Bool) (limit : Nat) :
    Tools.grep_arun E coll org_id pattern case_insensitive limit
      = match E.compile pattern case_insensitive with
        | .error msg => "Invalid regex pattern: " ++ msg
        | .ok pat =>
          if Tools.grepDirect E pat coll [⟨"org_id", .value org_id⟩] limit = [] then
            "No documents matched the pattern \x27" ++ pattern ++ "\x27."
          else
            String.intercalate "\n\n"
              (((Tools.grepDirect E pat coll [⟨"org_id", .value org_id⟩] limit).enum).map
                (fun p => Tools.fmtGrepEntry (p.1 + 1) p.2)) := by
  cases hc : E.compile pattern case_insensitive with
  | error msg => simp [Tools.grep_arun, hc]
  | ok pat =>
    have hloop : Tools.grepLoop E pat coll [⟨"org_id", .value org_id⟩] limit
        (coll.length + 1) none []
        = Tools.grepDirect E pat coll [⟨"org_id", .value org_id⟩] limit := by
      rw [Tools.grepLoop_spec E pat coll [⟨"org_id", .value org_id⟩] limit
        (coll.length + 1) none [] (by
          have hle := List.length_filter_le
            (fun q => Qdrant.evalFilter [⟨"org_id", Qdrant.FieldMatch.value org_id⟩] q.payload)
            coll
          simp only [Option.getD_none]
          omega)]
      simp only [Option.getD_none, List.drop_zero, List.length_nil, Nat.sub_zero,
        List.nil_append]
      rw [Tools.grepDirect, Tools.grepHits, List.map_take]
    simp only [Tools.grep_arun, hc, hloop]
